import Mathlib

/-!
# Verification of the rescue-robot grid simulator and return planner

Shallow embedding of `src/simulator/simulator.py`, `src/robot/hardware.py`
and `src/algorithms/returner.py`.  Grids are lists of rows of characters
(`'X'` wall, `'@'` victim, `'E'` entry, `'.'` free), positions are pairs of
integers `(x, y)`, directions are integers (`0` North, `1` East, `2` South,
`3` West) and commands are the characters `'A'`, `'G'`, `'P'`, `'E'`.
Python's `%` on negative integers agrees with Lean's `Int.emod`, so integer
arithmetic is translated verbatim.  Exceptions are modelled with `Except`.
-/

namespace RescueRobot

abbrev Grid := List (List Char)

abbrev Pos := Int × Int

/-- `simulator.py`: `self.height = len(grid)`. -/
def gridHeight (g : Grid) : Nat := g.length

/-- `simulator.py`: `self.width = len(grid[0]) if grid else 0`. -/
def gridWidth (g : Grid) : Nat :=
  match g with
  | [] => 0
  | row :: _ => row.length

/-- `Simulator._is_position_valid`: `0 <= x < self.width and 0 <= y < self.height`. -/
def isPositionValid (g : Grid) (p : Pos) : Bool :=
  0 ≤ p.1 && p.1 < (gridWidth g : Int) && 0 ≤ p.2 && p.2 < (gridHeight g : Int)

/-- Cell lookup `self.grid[y][x]` (used only at positions the source has
checked with `_is_position_valid`). -/
def getCell (g : Grid) (p : Pos) : Char :=
  (g.getD p.2.toNat []).getD p.1.toNat '.'

/-- Functional update `grid[y][x] = c`. -/
def setCell (g : Grid) (p : Pos) (c : Char) : Grid :=
  g.set p.2.toNat ((g.getD p.2.toNat []).set p.1.toNat c)

/-- `Simulator._get_adjacent_pos`; the source raises `ValueError` on a
direction outside `{0,1,2,3}`, modelled by `none`. -/
def adjacentPos (p : Pos) (direction : Int) : Option Pos :=
  if direction = 0 then some (p.1, p.2 - 1)
  else if direction = 1 then some (p.1 + 1, p.2)
  else if direction = 2 then some (p.1, p.2 + 1)
  else if direction = 3 then some (p.1 - 1, p.2)
  else none

/-- `Simulator._get_cell_content`: `'VAZIO'` outside the grid, otherwise
`'X' → 'PAREDE'`, `'@' → 'HUMANO'`, anything else (`'.'`, `'E'`) → `'VAZIO'`. -/
def getCellContent (g : Grid) (p : Pos) : String :=
  if ¬ isPositionValid g p then "VAZIO"
  else if getCell g p = 'X' then "PAREDE"
  else if getCell g p = '@' then "HUMANO"
  else "VAZIO"

/-- `Simulator.get_sensor_readings`: the triple `(left, right, front)` with
`left_dir = (dir - 1) % 4`, `right_dir = (dir + 1) % 4`, `front_dir = dir`;
`none` when `_get_adjacent_pos` would raise (invalid `dir`). -/
def getSensorReadings (g : Grid) (p : Pos) (dir : Int) : Option (String × String × String) :=
  match adjacentPos p ((dir - 1) % 4), adjacentPos p ((dir + 1) % 4), adjacentPos p dir with
  | some lp, some rp, some fp =>
      some (getCellContent g lp, getCellContent g rp, getCellContent g fp)
  | _, _, _ => none

/-- `Simulator.find_entry`: scan rows top to bottom, cells left to right,
return the first `'E'`; `ValueError` (here `none`) when absent. -/
def findEntryRowAux : List Char → Nat → Option Nat
  | [], _ => none
  | c :: rest, x => if c = 'E' then some x else findEntryRowAux rest (x + 1)

def findEntryAux : List (List Char) → Nat → Option Pos
  | [], _ => none
  | row :: rest, y =>
      match findEntryRowAux row 0 with
      | some x => some ((x : Int), (y : Int))
      | none => findEntryAux rest (y + 1)

def findEntry (g : Grid) : Option Pos := findEntryAux g 0

/-- All rows have the declared width (guaranteed by the excluded map
loader for the grids the simulator actually receives). -/
def isRectangular (g : Grid) : Bool := g.all (fun row => row.length == gridWidth g)

/-- `RobotState` from `simulator.py`: position, direction, carrying flag. -/
structure RobotState where
  pos : Pos
  dir : Int
  carga : Bool
deriving DecidableEq, Repr

/-- The exceptions raised by `Simulator.apply_command`, with their messages. -/
inductive SimError where
  | collision : String → SimError
  | atropelamento : String → SimError
  | invalidPickup : String → SimError
  | invalidEject : String → SimError
  | valueError : String → SimError
deriving DecidableEq, Repr

/-- `Simulator.apply_command`: one atomic step.  On success the returned
pair is the new robot state and the new grid (the source assigns
`self.grid = new_grid` only after no exception was raised). -/
def applyCommand (g : Grid) (s : RobotState) (cmd : Char) :
    Except SimError (RobotState × Grid) :=
  if cmd = 'A' then
    match adjacentPos s.pos s.dir with
    | none => .error (.valueError "Direção inválida")
    | some frontPos =>
      if ¬ isPositionValid g frontPos then
        .ok ({ s with pos := frontPos }, g)
      else if getCell g frontPos = 'X' then
        .error (.collision "Tentativa de mover para parede")
      else if getCell g frontPos = '@' ∧ s.carga = false then
        .error (.atropelamento "Tentativa de atropelar humano sem carga")
      else
        .ok ({ s with pos := frontPos }, g)
  else if cmd = 'G' then
    .ok ({ s with dir := (s.dir + 1) % 4 }, g)
  else if cmd = 'P' then
    match adjacentPos s.pos s.dir with
    | none => .error (.valueError "Direção inválida")
    | some frontPos =>
      if ¬ isPositionValid g frontPos then
        .error (.invalidPickup "Não há humano na frente para pegar")
      else if getCell g frontPos ≠ '@' then
        .error (.invalidPickup "Não há humano na frente para pegar")
      else
        .ok ({ s with carga := true }, setCell g frontPos '.')
  else if cmd = 'E' then
    if s.carga = false then
      .error (.invalidEject "Robô não possui carga para ejetar")
    else
      match findEntry g with
      | none => .error (.valueError "Entrada E não encontrada no grid")
      | some entryPos =>
        if s.pos ≠ entryPos then
          .error (.invalidEject "Robô deve estar na entrada para ejetar")
        else
          match adjacentPos s.pos s.dir with
          | none => .error (.valueError "Direção inválida")
          | some frontPos =>
            if isPositionValid g frontPos then
              .error (.invalidEject "Robô não está de frente para a saída")
            else
              .ok ({ s with carga := false }, g)
  else .error (.valueError "Comando inválido")

/-- The stateful view of one `HardwareInterface.send_command` step: on an
exception the simulator's grid and the hardware's pose/heading/carga are
left exactly as they were (the assignments happen only after
`apply_command` returned). -/
def simStep (g : Grid) (s : RobotState) (cmd : Char) :
    (Grid × RobotState) × Option SimError :=
  match applyCommand g s cmd with
  | .ok (s', g') => ((g', s'), none)
  | .error e => ((g, s), some e)

/-- Run a list of commands in sequence, stopping at the first exception. -/
def runCommands (g : Grid) (s : RobotState) : List Char → Except SimError (RobotState × Grid)
  | [] => .ok (s, g)
  | c :: cs =>
    match applyCommand g s c with
    | .ok (s', g') => runCommands g' s' cs
    | .error e => .error e

/-! ## `robot/hardware.py` -/

/-- `HardwareInterface.__init__`: the initial direction chosen from the
entry's border edge, in the source's order (`entry_y == 0` → South,
`entry_y == height-1` → North, `entry_x == 0` → East,
`entry_x == width-1` → West); `ValueError` (here `none`) otherwise. -/
def initialDir (g : Grid) (entry : Pos) : Option Int :=
  if entry.2 = 0 then some 2
  else if entry.2 = (gridHeight g : Int) - 1 then some 0
  else if entry.1 = 0 then some 1
  else if entry.1 = (gridWidth g : Int) - 1 then some 3
  else none

/-- The robot state set up by `HardwareInterface.__init__`: pose at the
entry cell, border-determined heading, `carga = False`.  `none` models the
`ValueError`s raised when the entry is missing or not on the border. -/
def initHardware (g : Grid) : Option RobotState :=
  match findEntry g with
  | none => none
  | some e =>
    match initialDir g e with
    | none => none
    | some d => some ⟨e, d, false⟩

/-! ## `algorithms/returner.py` -/

/-- One step of `_invert_commands`' loop body: what gets `extend`ed for
each original command (`'A'` → `['G','G','A','G','G']`, `'G'` →
`['G','G','G']`, `'P'`/`'E'` → nothing). -/
def invertOne (c : Char) : List Char :=
  if c = 'A' then ['G', 'G', 'A', 'G', 'G']
  else if c = 'G' then ['G', 'G', 'G']
  else []

/-- `_invert_commands`: process the history from the most recent command
backward, concatenating each command's undo sequence. -/
def invertCommands (commands : List Char) : List Char :=
  commands.reverse.flatMap invertOne

/-- `_find_alternative_path`: the stub builds the probes
`['G','A'], ['G','G','A'], ['G','G','G','A']` (ignoring `remaining_steps`
and the hardware) and returns the first one; `None` only if the list were
empty. -/
def findAlternativePath (remainingSteps : List Char) : Option (List Char) :=
  let alternatives := ([1, 2, 3] : List Nat).map (fun r => List.replicate r 'G' ++ ['A'])
  match alternatives with
  | [] => none
  | a :: _ => some a

/-- The record passed to `hardware.logger.log` in the dead-end branch of
`plan_return`. -/
def becoAlarm : String × String × String × String × Bool :=
  ("ALARM", "BECO_POS_COLETA", "Robô preso em beco", "após coleta", true)

/-- Result of `plan_return`: either the planned command list or the
`BecoPosColetaError` message, together with the alarm records emitted to
the audit logger along the way. -/
structure PlanResult where
  result : Except String (List Char)
  alarms : List (String × String × String × String × Bool)
deriving Repr

/-- The carrying-branch loop of `plan_return`.  The hardware's pose does
not change while planning, so `hardware.read_sensors()` returns the same
triple at every iteration; it is passed in as `sensors`.  On a planned
`'A'` with all three readings `'PAREDE'` the loop consults
`_find_alternative_path` on the remaining suffix: `None` means log the
alarm and raise, otherwise extend with the alternative and `break`. -/
def planLoop (sensors : String × String × String) :
    List Char → List Char → PlanResult
  | [], acc => ⟨.ok acc, []⟩
  | cmd :: rest, acc =>
    if cmd = 'A' ∧ sensors = ("PAREDE", "PAREDE", "PAREDE") then
      match findAlternativePath (cmd :: rest) with
      | none => ⟨.error "Robô ficou preso em beco após coletar humano", [becoAlarm]⟩
      | some alt => ⟨.ok (acc ++ alt), []⟩
    else planLoop sensors rest (acc ++ [cmd])

/-- `plan_return`: without cargo just invert the memory; with cargo run
the safety-checking loop over the inverted sequence. -/
def planReturn (memory : List Char) (carga : Bool)
    (sensors : String × String × String) : PlanResult :=
  if ¬ carga then ⟨.ok (invertCommands memory), []⟩
  else planLoop sensors (invertCommands memory) []

/-! ## Helper lemmas -/

/-- Inverting `adjacentPos`: which direction and offset produced `q`. -/
lemma adjacentPos_eq_some {p q : Pos} {d : Int} (h : adjacentPos p d = some q) :
    (d = 0 ∧ q = (p.1, p.2 - 1)) ∨ (d = 1 ∧ q = (p.1 + 1, p.2)) ∨
    (d = 2 ∧ q = (p.1, p.2 + 1)) ∨ (d = 3 ∧ q = (p.1 - 1, p.2)) := by
  unfold adjacentPos at h
  split_ifs at h <;> simp_all

/-- Stepping forward then turning twice steps back to the start cell. -/
lemma adjacentPos_back {p q : Pos} {d : Int} (h : adjacentPos p d = some q) :
    adjacentPos q ((d + 2) % 4) = some p := by
  rcases adjacentPos_eq_some h with ⟨hd, hq⟩ | ⟨hd, hq⟩ | ⟨hd, hq⟩ | ⟨hd, hq⟩ <;>
    subst hd <;> subst hq <;> simp [adjacentPos]

/-- Elements of an inverted history are only `'G'` or `'A'`. -/
lemma invertCommands_mem {H : List Char} {x : Char} (hx : x ∈ invertCommands H) :
    x = 'G' ∨ x = 'A' := by
  unfold invertCommands at hx
  rw [List.mem_flatMap] at hx
  obtain ⟨c, _, hc⟩ := hx
  unfold invertOne at hc
  split_ifs at hc <;> simp_all <;> tauto

/-! ## Claim theorems -/

/-- C2: `_invert_commands` processes the history from the most recent
command backward, undoing each `'A'` with `['G','G','A','G','G']`, each
`'G'` with `['G','G','G']`, and dropping `'P'` and `'E'`; consequently no
inverted sequence ever contains a `'P'` or an `'E'`. -/
theorem invert_commands_spec (H : List Char) :
    invertCommands (H ++ ['A']) = ['G', 'G', 'A', 'G', 'G'] ++ invertCommands H ∧
    invertCommands (H ++ ['G']) = ['G', 'G', 'G'] ++ invertCommands H ∧
    invertCommands (H ++ ['P']) = invertCommands H ∧
    invertCommands (H ++ ['E']) = invertCommands H ∧
    'P' ∉ invertCommands H ∧ 'E' ∉ invertCommands H := by
  refine ⟨?_, ?_, ?_, ?_, fun h => ?_, fun h => ?_⟩
  · simp [invertCommands, invertOne]
  · simp [invertCommands, invertOne]
  · simp [invertCommands, invertOne]
  · simp [invertCommands, invertOne]
  · rcases invertCommands_mem h with h' | h' <;>
      exact absurd h' (by decide)
  · rcases invertCommands_mem h with h' | h' <;>
      exact absurd h' (by decide)

/-- Witness for C2 at a concrete history. -/
theorem invert_commands_spec_witness :
    invertCommands (['A', 'G', 'P'] ++ ['A']) =
      ['G', 'G', 'A', 'G', 'G'] ++ invertCommands ['A', 'G', 'P'] ∧
    'P' ∉ invertCommands ['A', 'G', 'P'] ∧ 'E' ∉ invertCommands ['A', 'G', 'P'] :=
  ⟨(invert_commands_spec ['A', 'G', 'P']).1,
   (invert_commands_spec ['A', 'G', 'P']).2.2.2.2.1,
   (invert_commands_spec ['A', 'G', 'P']).2.2.2.2.2⟩

/-- C8: `'G'` always succeeds, sets the heading to `(dir + 1) % 4` and
changes nothing else; four consecutive turns restore the exact pose and
heading. -/
theorem turn_four_cycle (g : Grid) (s : RobotState) :
    applyCommand g s 'G' = .ok ({ s with dir := (s.dir + 1) % 4 }, g) ∧
    (0 ≤ s.dir → s.dir < 4 → runCommands g s ['G', 'G', 'G', 'G'] = .ok (s, g)) := by
  constructor
  · rfl
  · intro h0 h3
    simp [runCommands, applyCommand]
    have h4 : (s.dir + 1 + 1 + 1 + 1) % 4 = s.dir := by omega
    rw [h4]

/-- Witness for C8 at a concrete state. -/
theorem turn_four_cycle_witness :
    applyCommand [['E', '.']] ⟨(0, 0), 1, false⟩ 'G' =
      .ok (⟨(0, 0), 2, false⟩, [['E', '.']]) ∧
    runCommands [['E', '.']] ⟨(0, 0), 1, false⟩ ['G', 'G', 'G', 'G'] =
      .ok (⟨(0, 0), 1, false⟩, [['E', '.']]) :=
  ⟨(turn_four_cycle [['E', '.']] ⟨(0, 0), 1, false⟩).1,
   (turn_four_cycle [['E', '.']] ⟨(0, 0), 1, false⟩).2 (by decide) (by decide)⟩

/-- The carrying-branch loop of `plan_return` can never reach the raise:
the stub `_find_alternative_path` always returns its first probe. -/
lemma planLoop_ok (sensors : String × String × String) :
    ∀ steps acc, ∃ p, planLoop sensors steps acc = ⟨.ok p, []⟩ := by
  intro steps
  induction steps with
  | nil => intro acc; exact ⟨acc, rfl⟩
  | cons cmd rest ih =>
      intro acc
      by_cases h : cmd = 'A' ∧ sensors = ("PAREDE", "PAREDE", "PAREDE")
      · exact ⟨acc ++ ['G', 'A'], by simp [planLoop, h, findAlternativePath]⟩
      · obtain ⟨p, hp⟩ := ih (acc ++ [cmd])
        exact ⟨p, by simp [planLoop, h, hp]⟩

/-- C1 (code bug): in the fully-enclosed dead end after pickup — memory
`['A','P']`, carrying, all three sensors reading `'PAREDE'` —
`plan_return` does not raise `BecoPosColetaError` and emits no alarm
record: the stub `_find_alternative_path` returns the probe `['G','A']`,
so the plan `['G','G','G','A']` is returned instead.  In fact for every
memory, carry flag and sensor triple the planner returns a plan and never
raises. -/
theorem plan_return_never_raises :
    planReturn ['A', 'P'] true ("PAREDE", "PAREDE", "PAREDE") =
      ⟨.ok ['G', 'G', 'G', 'A'], []⟩ ∧
    ∀ memory carga sensors, ∃ plan,
      planReturn memory carga sensors = ⟨.ok plan, []⟩ := by
  constructor
  · rfl
  · intro memory carga sensors
    unfold planReturn
    by_cases h : carga
    · obtain ⟨p, hp⟩ := planLoop_ok sensors (invertCommands memory) []
      exact ⟨p, by simp [h, hp]⟩
    · exact ⟨invertCommands memory, by simp [h]⟩

/-- A small concrete map used to instantiate theorems: entry on the top
border, victim in the middle, walls around. -/
def gEx : Grid := [['X', 'E', 'X'], ['X', '@', 'X'], ['X', 'X', 'X']]

/-- C3: `'A'` computes the front cell from pose and heading; out of
bounds → move there; `'X'` → `CollisionError`; `'@'` without cargo →
`AtropelamentoError`; otherwise move, with grid and cargo unchanged (the
returned grid is `g` itself and `carga` is untouched in the new state). -/
theorem advance_semantics (g : Grid) (s : RobotState) (fp : Pos)
    (hfp : adjacentPos s.pos s.dir = some fp) :
    (isPositionValid g fp = false →
      applyCommand g s 'A' = .ok ({ s with pos := fp }, g)) ∧
    (isPositionValid g fp = true → getCell g fp = 'X' →
      applyCommand g s 'A' = .error (.collision "Tentativa de mover para parede")) ∧
    (isPositionValid g fp = true → getCell g fp = '@' → s.carga = false →
      applyCommand g s 'A' =
        .error (.atropelamento "Tentativa de atropelar humano sem carga")) ∧
    (isPositionValid g fp = true → getCell g fp ≠ 'X' →
      (getCell g fp = '@' → s.carga = true) →
      applyCommand g s 'A' = .ok ({ s with pos := fp }, g)) := by
  refine ⟨fun hv => ?_, fun hv hx => ?_, fun hv hx hc => ?_, fun hv hx hc => ?_⟩
  · simp [applyCommand, hfp, hv]
  · simp [applyCommand, hfp, hv, hx]
  · simp [applyCommand, hfp, hv, hx, hc]
  · by_cases hh : getCell g fp = '@'
    · have hcarga := hc hh
      simp [applyCommand, hfp, hv, hx, hh, hcarga]
    · simp [applyCommand, hfp, hv, hx, hh]

/-- Witness for C3: advancing into the wall below the victim cell. -/
theorem advance_semantics_witness :
    applyCommand gEx ⟨(1, 1), 2, false⟩ 'A' =
      .error (.collision "Tentativa de mover para parede") :=
  (advance_semantics gEx ⟨(1, 1), 2, false⟩ (1, 2) (by decide)).2.1
    (by decide) (by decide)

/-- C4: `'E'` succeeds exactly when carrying at the entry cell with the
front cell out of bounds, and then only clears `carga`; the three guards
fire in the order no-cargo, not-at-entry, not-facing-outward. -/
theorem eject_semantics (g : Grid) (s : RobotState) (e fp : Pos)
    (he : findEntry g = some e) (hfp : adjacentPos s.pos s.dir = some fp) :
    (s.carga = false →
      applyCommand g s 'E' = .error (.invalidEject "Robô não possui carga para ejetar")) ∧
    (s.carga = true → s.pos ≠ e →
      applyCommand g s 'E' = .error (.invalidEject "Robô deve estar na entrada para ejetar")) ∧
    (s.carga = true → s.pos = e → isPositionValid g fp = true →
      applyCommand g s 'E' = .error (.invalidEject "Robô não está de frente para a saída")) ∧
    (s.carga = true → s.pos = e → isPositionValid g fp = false →
      applyCommand g s 'E' = .ok ({ s with carga := false }, g)) ∧
    ((∃ r, applyCommand g s 'E' = .ok r) ↔
      s.carga = true ∧ s.pos = e ∧ isPositionValid g fp = false) := by
  have h1 : s.carga = false →
      applyCommand g s 'E' = .error (.invalidEject "Robô não possui carga para ejetar") := by
    intro hc; simp [applyCommand, hc]
  have h2 : s.carga = true → s.pos ≠ e →
      applyCommand g s 'E' = .error (.invalidEject "Robô deve estar na entrada para ejetar") := by
    intro hc hp; simp [applyCommand, hc, he, hp]
  have h3 : s.carga = true → s.pos = e → isPositionValid g fp = true →
      applyCommand g s 'E' = .error (.invalidEject "Robô não está de frente para a saída") := by
    intro hc hp hv
    have hfp' : adjacentPos e s.dir = some fp := by rw [← hp]; exact hfp
    simp [applyCommand, hc, he, hp, hfp', hv]
  have h4 : s.carga = true → s.pos = e → isPositionValid g fp = false →
      applyCommand g s 'E' = .ok ({ s with carga := false }, g) := by
    intro hc hp hv
    have hfp' : adjacentPos e s.dir = some fp := by rw [← hp]; exact hfp
    simp [applyCommand, hc, he, hp, hfp', hv]
  refine ⟨h1, h2, h3, h4, ?_, ?_⟩
  · rintro ⟨r, hr⟩
    by_cases hc : s.carga = true
    · by_cases hp : s.pos = e
      · by_cases hv : isPositionValid g fp = true
        · rw [h3 hc hp hv] at hr; cases hr
        · exact ⟨hc, hp, by simpa using hv⟩
      · rw [h2 hc hp] at hr; cases hr
    · rw [h1 (by simpa using hc)] at hr; cases hr
  · rintro ⟨hc, hp, hv⟩
    exact ⟨_, h4 hc hp hv⟩

/-- Witness for C4: ejecting from the entry of `gEx` facing North. -/
theorem eject_semantics_witness :
    applyCommand gEx ⟨(1, 0), 0, true⟩ 'E' = .ok (⟨(1, 0), 0, false⟩, gEx) :=
  (eject_semantics gEx ⟨(1, 0), 0, true⟩ (1, 0) (1, -1)
    (by decide) (by decide)).2.2.2.1 rfl rfl (by decide)

/-- `_get_cell_content` answers `"PAREDE"` exactly on in-bounds wall cells. -/
lemma content_wall_iff (g : Grid) (q : Pos) :
    getCellContent g q = "PAREDE" ↔ isPositionValid g q = true ∧ getCell g q = 'X' := by
  unfold getCellContent
  split_ifs with hv hx hh
  · exact iff_of_true rfl ⟨hv, hx⟩
  · exact iff_of_false (by decide) fun ⟨_, b⟩ => hx b
  · exact iff_of_false (by decide) fun ⟨_, b⟩ => hx b
  · exact iff_of_false (by decide) fun ⟨a, _⟩ => hv a

/-- `_get_cell_content` answers `"HUMANO"` exactly on in-bounds victim cells. -/
lemma content_human_iff (g : Grid) (q : Pos) :
    getCellContent g q = "HUMANO" ↔ isPositionValid g q = true ∧ getCell g q = '@' := by
  unfold getCellContent
  split_ifs with hv hx hh
  · exact iff_of_false (by decide) fun ⟨_, b⟩ => by
      rw [hx] at b; exact absurd b (by decide)
  · exact iff_of_true rfl ⟨hv, hh⟩
  · exact iff_of_false (by decide) fun ⟨_, b⟩ => hh b
  · exact iff_of_false (by decide) fun ⟨a, _⟩ => hv a

/-- C5: the sensor read returns `(left, right, front)` with front at the
heading, right at `(dir + 1) % 4`, left at `(dir - 1) % 4`, each adjacent
cell classified `'X' → "PAREDE"`, `'@' → "HUMANO"`, everything else —
free cell, entry cell, out of bounds — `"VAZIO"`; it is a pure function
of pose and grid. -/
theorem sensor_readings_spec (g : Grid) (p : Pos) (d : Int)
    (h0 : 0 ≤ d) (h3 : d < 4) :
    (∃ lp rp fp,
      adjacentPos p ((d - 1) % 4) = some lp ∧
      adjacentPos p ((d + 1) % 4) = some rp ∧
      adjacentPos p d = some fp ∧
      getSensorReadings g p d =
        some (getCellContent g lp, getCellContent g rp, getCellContent g fp)) ∧
    ∀ q : Pos,
      (getCellContent g q = "PAREDE" ↔ isPositionValid g q = true ∧ getCell g q = 'X') ∧
      (getCellContent g q = "HUMANO" ↔ isPositionValid g q = true ∧ getCell g q = '@') ∧
      (isPositionValid g q = false → getCellContent g q = "VAZIO") ∧
      ((getCell g q = '.' ∨ getCell g q = 'E') → getCellContent g q = "VAZIO") := by
  constructor
  · interval_cases d <;> exact ⟨_, _, _, rfl, rfl, rfl, rfl⟩
  · intro q
    refine ⟨content_wall_iff g q, content_human_iff g q, fun h => ?_, fun h => ?_⟩
    · simp [getCellContent, h]
    · have hx : getCell g q ≠ 'X' := by rcases h with h | h <;> rw [h] <;> decide
      have hh : getCell g q ≠ '@' := by rcases h with h | h <;> rw [h] <;> decide
      simp [getCellContent, hx, hh]

/-- Witness for C5: the readings one cell above the victim of `gEx`,
facing South. -/
theorem sensor_readings_spec_witness :
    ∃ lp rp fp,
      adjacentPos ((1 : Int), (0 : Int)) (((2 : Int) - 1) % 4) = some lp ∧
      adjacentPos ((1 : Int), (0 : Int)) (((2 : Int) + 1) % 4) = some rp ∧
      adjacentPos ((1 : Int), (0 : Int)) 2 = some fp ∧
      getSensorReadings gEx (1, 0) 2 =
        some (getCellContent gEx lp, getCellContent gEx rp, getCellContent gEx fp) :=
  (sensor_readings_spec gEx (1, 0) 2 (by decide) (by decide)).1

/-! ## List and grid helper lemmas -/

lemma getD_set_self {α : Type} : ∀ (l : List α) (i : Nat) (a d : α), i < l.length →
    (l.set i a).getD i d = a
  | [], i, _, _, h => absurd h (by simp)
  | _ :: _, 0, _, _, _ => rfl
  | _ :: xs, i + 1, a, d, h => by
      simpa using getD_set_self xs i a d (by simpa using h)

lemma getD_set_ne {α : Type} : ∀ (l : List α) (i j : Nat) (a d : α), i ≠ j →
    (l.set i a).getD j d = l.getD j d
  | [], _, _, _, _, _ => rfl
  | _ :: _, 0, 0, _, _, h => absurd rfl h
  | _ :: _, 0, _ + 1, _, _, _ => rfl
  | _ :: _, _ + 1, 0, _, _, _ => rfl
  | _ :: xs, i + 1, j + 1, a, d, h => by
      simpa using getD_set_ne xs i j a d (fun hij => h (by omega))

lemma getD_of_length_le {α : Type} : ∀ (l : List α) (i : Nat) (d : α), l.length ≤ i →
    l.getD i d = d
  | [], _, _, _ => rfl
  | _ :: xs, i + 1, d, h => by
      simpa using getD_of_length_le xs i d (by simpa using h)

/-- A cell that is not the default `'.'` lies inside the row/column lists. -/
lemma getCell_bounds {g : Grid} {p : Pos} (h : getCell g p ≠ '.') :
    p.2.toNat < g.length ∧ p.1.toNat < (g.getD p.2.toNat []).length := by
  constructor
  · by_contra hy
    apply h
    unfold getCell
    rw [getD_of_length_le g p.2.toNat [] (by omega)]
    rfl
  · by_contra hx
    exact h (getD_of_length_le _ _ _ (by omega))

lemma isPositionValid_iff {g : Grid} {p : Pos} :
    isPositionValid g p = true ↔
      0 ≤ p.1 ∧ p.1 < (gridWidth g : Int) ∧ 0 ≤ p.2 ∧ p.2 < (gridHeight g : Int) := by
  unfold isPositionValid
  simp only [Bool.and_eq_true, decide_eq_true_eq]
  tauto

lemma getCell_setCell_self (g : Grid) (p : Pos) (c : Char)
    (hy : p.2.toNat < g.length) (hx : p.1.toNat < (g.getD p.2.toNat []).length) :
    getCell (setCell g p c) p = c := by
  unfold getCell setCell
  rw [getD_set_self _ _ _ _ hy]
  exact getD_set_self _ _ _ _ hx

lemma getCell_setCell_ne (g : Grid) (p q : Pos) (c : Char)
    (hp1 : 0 ≤ p.1) (hp2 : 0 ≤ p.2) (hq1 : 0 ≤ q.1) (hq2 : 0 ≤ q.2)
    (hne : q ≠ p) :
    getCell (setCell g p c) q = getCell g q := by
  by_cases hy : q.2.toNat = p.2.toNat
  · have h2 : q.2 = p.2 := by omega
    have hx : q.1.toNat ≠ p.1.toNat := by
      intro hx
      exact hne (Prod.ext (by omega) h2)
    unfold getCell setCell
    by_cases hlen : p.2.toNat < g.length
    · rw [hy, getD_set_self _ _ _ _ hlen, getD_set_ne _ _ _ _ _ (fun hh => hx hh.symm)]
    · rw [List.set_eq_of_length_le (by omega)]
  · unfold getCell setCell
    rw [getD_set_ne _ _ _ _ _ (fun hh => hy hh.symm)]

/-- The number of `'@'` cells in a grid. -/
def countVictims (g : Grid) : Nat := (g.map (fun row => row.count '@')).sum

lemma count_set_dot : ∀ (l : List Char) (i : Nat), l.getD i '.' = '@' →
    (l.set i '.').count '@' + 1 = l.count '@'
  | [], i, h => by
      rw [getD_of_length_le [] i '.' (by simp)] at h
      exact absurd h (by decide)
  | c :: cs, 0, h => by
      have hc : c = '@' := by simpa using h
      subst hc
      simp [List.count_cons]
  | c :: cs, i + 1, h => by
      have := count_set_dot cs i (by simpa using h)
      simp only [List.set, List.count_cons]
      omega

lemma countVictims_set : ∀ (g : Grid) (y : Nat) (row' : List Char), y < g.length →
    countVictims (g.set y row') + (g.getD y []).count '@' =
      countVictims g + row'.count '@'
  | [], _, _, h => absurd h (by simp)
  | r :: rs, 0, row', _ => by
      simp [countVictims]
      omega
  | r :: rs, y + 1, row', h => by
      have := countVictims_set rs y row' (by simpa using h)
      simp only [List.set, countVictims, List.map_cons, List.sum_cons, List.getD_cons_succ] at this ⊢
      omega

/-- A successful pickup removes exactly one `'@'` from the grid. -/
lemma countVictims_pickup {g : Grid} {p : Pos} (hc : getCell g p = '@') :
    countVictims (setCell g p '.') + 1 = countVictims g := by
  have hb := getCell_bounds (g := g) (p := p) (by rw [hc]; decide)
  have h1 := countVictims_set g p.2.toNat ((g.getD p.2.toNat []).set p.1.toNat '.') hb.1
  have h2 := count_set_dot (g.getD p.2.toNat []) p.1.toNat hc
  unfold setCell
  omega

/-- Exhaustive characterization of the successful outcomes of
`apply_command`. -/
lemma applyCommand_ok_cases {g : Grid} {s : RobotState} {cmd : Char}
    {r : RobotState × Grid} (h : applyCommand g s cmd = .ok r) :
    (cmd = 'A' ∧ ∃ fp, adjacentPos s.pos s.dir = some fp ∧ r = ({ s with pos := fp }, g)) ∨
    (cmd = 'G' ∧ r = ({ s with dir := (s.dir + 1) % 4 }, g)) ∨
    (cmd = 'P' ∧ ∃ fp, adjacentPos s.pos s.dir = some fp ∧ isPositionValid g fp = true ∧
      getCell g fp = '@' ∧ r = ({ s with carga := true }, setCell g fp '.')) ∨
    (cmd = 'E' ∧ r = ({ s with carga := false }, g)) := by
  unfold applyCommand at h
  split_ifs at h with hA hG hP hE hc
  · left
    refine ⟨hA, ?_⟩
    split at h
    next => cases h
    next fp hm =>
      split_ifs at h with h1 h2 h3
      · cases h
        exact ⟨fp, hm, rfl⟩
      · cases h
        exact ⟨fp, hm, rfl⟩
  · right; left
    refine ⟨hG, ?_⟩
    cases h
    rfl
  · right; right; left
    refine ⟨hP, ?_⟩
    split at h
    next => cases h
    next fp hm =>
      split_ifs at h with h1 h2
      · cases h
        exact ⟨fp, hm, h1, not_not.mp h2, rfl⟩
  · right; right; right
    refine ⟨hE, ?_⟩
    split at h
    next => cases h
    next e hf =>
      split_ifs at h with hp
      · split at h
        next => cases h
        next fp hm =>
          split_ifs at h with hv
          · cases h
            rfl

/-- C6: grid content is changed only by a successful pickup, which turns
exactly the front victim cell into `'.'`; successful `'A'`, `'G'`, `'E'`
return the grid unchanged, and a failing command leaves grid, pose,
heading and cargo exactly as they were (the step is atomic). -/
theorem grid_mutation_frame (g : Grid) (s : RobotState) (cmd : Char) :
    (∀ e, applyCommand g s cmd = .error e → simStep g s cmd = ((g, s), some e)) ∧
    (∀ r, applyCommand g s cmd = .ok r → cmd ≠ 'P' → r.2 = g) ∧
    (∀ r, applyCommand g s cmd = .ok r → cmd = 'P' →
      ∃ fp, adjacentPos s.pos s.dir = some fp ∧ isPositionValid g fp = true ∧
        getCell g fp = '@' ∧ r.1 = { s with carga := true } ∧
        getCell r.2 fp = '.' ∧
        ∀ q, isPositionValid g q = true → q ≠ fp → getCell r.2 q = getCell g q) := by
  refine ⟨fun e he => by simp [simStep, he], fun r hr hne => ?_, fun r hr hP => ?_⟩
  · rcases applyCommand_ok_cases hr with ⟨_, _, _, hre⟩ | ⟨_, hre⟩ | ⟨hP, _⟩ |
      ⟨_, hre⟩
    · rw [hre]
    · rw [hre]
    · exact absurd hP hne
    · rw [hre]
  · rcases applyCommand_ok_cases hr with ⟨hA, _⟩ | ⟨hG, _⟩ |
      ⟨_, fp, hm, hv, hc, hre⟩ | ⟨hE, _⟩
    · exact absurd (hP ▸ hA) (by decide)
    · exact absurd (hP ▸ hG) (by decide)
    · have hb := getCell_bounds (g := g) (p := fp) (by rw [hc]; decide)
      have hfp := isPositionValid_iff.mp hv
      refine ⟨fp, hm, hv, hc, by rw [hre], ?_, ?_⟩
      · rw [hre]
        exact getCell_setCell_self g fp '.' hb.1 hb.2
      · intro q hq hne'
        have hqv := isPositionValid_iff.mp hq
        rw [hre]
        exact getCell_setCell_ne g fp q '.' hfp.1 hfp.2.2.1 hqv.1 hqv.2.2.1 hne'
    · exact absurd (hP ▸ hE) (by decide)

/-- Witness for C6: picking up the victim of `gEx` from the entry cell,
and the atomicity of a failing advance. -/
theorem grid_mutation_frame_witness :
    simStep gEx ⟨(1, 1), 2, true⟩ 'A' =
      ((gEx, ⟨(1, 1), 2, true⟩), some (.collision "Tentativa de mover para parede")) ∧
    ∃ fp, adjacentPos ((1 : Int), (0 : Int)) 2 = some fp ∧ isPositionValid gEx fp = true ∧
      getCell gEx fp = '@' ∧
      (⟨(1, 0), 2, true⟩ : RobotState) = { (⟨(1, 0), 2, false⟩ : RobotState) with carga := true } ∧
      getCell [['X', 'E', 'X'], ['X', '.', 'X'], ['X', 'X', 'X']] fp = '.' ∧
      ∀ q, isPositionValid gEx q = true → q ≠ fp →
        getCell [['X', 'E', 'X'], ['X', '.', 'X'], ['X', 'X', 'X']] q = getCell gEx q :=
  ⟨(grid_mutation_frame gEx ⟨(1, 1), 2, true⟩ 'A').1 _ rfl,
   (grid_mutation_frame gEx ⟨(1, 0), 2, false⟩ 'P').2.2
     (⟨(1, 0), 2, true⟩, [['X', 'E', 'X'], ['X', '.', 'X'], ['X', 'X', 'X']])
     rfl rfl⟩

/-- C9: no command creates a victim cell, the victim count never grows
(so at most one victim stays at most one), and a successful pickup
removes exactly one victim. -/
theorem victim_invariant (g : Grid) (s : RobotState) (cmd : Char) :
    ∀ r, applyCommand g s cmd = .ok r →
      countVictims r.2 ≤ countVictims g ∧
      (countVictims g ≤ 1 → countVictims r.2 ≤ 1) ∧
      (∀ q, isPositionValid g q = true → getCell r.2 q = '@' → getCell g q = '@') ∧
      (cmd = 'P' → countVictims r.2 + 1 = countVictims g) := by
  intro r hr
  rcases applyCommand_ok_cases hr with ⟨hA, _, _, hre⟩ | ⟨hG, hre⟩ |
    ⟨hP, fp, hm, hv, hc, hre⟩ | ⟨hE, hre⟩
  · rw [hre]
    exact ⟨le_refl _, fun h => h, fun q _ hq => hq,
      fun h => absurd (h ▸ hA) (by decide)⟩
  · rw [hre]
    exact ⟨le_refl _, fun h => h, fun q _ hq => hq,
      fun h => absurd (h ▸ hG) (by decide)⟩
  · have hcount := countVictims_pickup hc
    have hfp := isPositionValid_iff.mp hv
    have hb := getCell_bounds (g := g) (p := fp) (by rw [hc]; decide)
    have h2 : r.2 = setCell g fp '.' := by rw [hre]
    refine ⟨by rw [h2]; omega, by rw [h2]; omega, ?_, fun _ => by rw [h2]; omega⟩
    intro q hq hqat
    rw [h2] at hqat
    by_cases hqfp : q = fp
    · rw [hqfp, getCell_setCell_self g fp '.' hb.1 hb.2] at hqat
      exact absurd hqat (by decide)
    · have hqv := isPositionValid_iff.mp hq
      rw [getCell_setCell_ne g fp q '.' hfp.1 hfp.2.2.1 hqv.1 hqv.2.2.1 hqfp] at hqat
      exact hqat
  · rw [hre]
    exact ⟨le_refl _, fun h => h, fun q _ hq => hq,
      fun h => absurd (h ▸ hE) (by decide)⟩

/-- Witness for C9: the pickup in `gEx` takes the victim count from one
to zero. -/
theorem victim_invariant_witness :
    countVictims [['X', 'E', 'X'], ['X', '.', 'X'], ['X', 'X', 'X']] ≤ countVictims gEx ∧
    countVictims [['X', 'E', 'X'], ['X', '.', 'X'], ['X', 'X', 'X']] + 1 = countVictims gEx :=
  ⟨(victim_invariant gEx ⟨(1, 0), 2, false⟩ 'P'
      (⟨(1, 0), 2, true⟩, [['X', 'E', 'X'], ['X', '.', 'X'], ['X', 'X', 'X']]) rfl).1,
   (victim_invariant gEx ⟨(1, 0), 2, false⟩ 'P'
      (⟨(1, 0), 2, true⟩, [['X', 'E', 'X'], ['X', '.', 'X'], ['X', 'X', 'X']]) rfl).2.2.2 rfl⟩

/-! ## Round trip of a successful advance (C7) -/

/-- Inversion of a successful `'A'` step. -/
lemma advance_ok {g : Grid} {s : RobotState} {r : RobotState × Grid}
    (h : applyCommand g s 'A' = .ok r) :
    ∃ fp, adjacentPos s.pos s.dir = some fp ∧ r = ({ s with pos := fp }, g) := by
  rcases applyCommand_ok_cases h with ⟨_, fp, hm, hre⟩ | ⟨hG, _⟩ | ⟨hP, _⟩ | ⟨hE, _⟩
  · exact ⟨fp, hm, hre⟩
  · exact absurd hG (by decide)
  · exact absurd hP (by decide)
  · exact absurd hE (by decide)

/-- Unfolding one `'G'` step of a command run. -/
lemma runCommands_turn (g : Grid) (st : RobotState) (rest : List Char) :
    runCommands g st ('G' :: rest) =
      runCommands g ({ st with dir := (st.dir + 1) % 4 }) rest := rfl

/-- Unfolding one safe `'A'` step of a command run. -/
lemma runCommands_advance (g : Grid) (st : RobotState) (fp : Pos) (rest : List Char)
    (hm : adjacentPos st.pos st.dir = some fp)
    (hsafe : isPositionValid g fp = false ∨
      (getCell g fp ≠ 'X' ∧ (getCell g fp = '@' → st.carga = true))) :
    runCommands g st ('A' :: rest) = runCommands g ({ st with pos := fp }) rest := by
  have hstep : applyCommand g st 'A' = .ok ({ st with pos := fp }, g) := by
    rcases hsafe with hv | ⟨hx, hc⟩
    · simp [applyCommand, hm, hv]
    · by_cases hv' : isPositionValid g fp = true
      · by_cases hat : getCell g fp = '@'
        · have hcarga := hc hat
          simp [applyCommand, hm, hv', hx, hat, hcarga]
        · simp [applyCommand, hm, hv', hx, hat]
      · have hv'' : isPositionValid g fp = false := by simpa using hv'
        simp [applyCommand, hm, hv'']
  simp [runCommands, hstep]

/-- C7 counterexample: with `CarryState = false`, a state standing on a
wall cell admits a successful `'A'` whose undo sequence collides instead
of returning: the proviso `CarryState = false` alone does not make the
round trip hold. -/
theorem advance_roundtrip_cex :
    applyCommand [['X', '.']] ⟨(0, 0), 1, false⟩ 'A' =
      .ok (⟨(1, 0), 1, false⟩, [['X', '.']]) ∧
    (⟨(0, 0), 1, false⟩ : RobotState).carga = false ∧
    runCommands [['X', '.']] ⟨(1, 0), 1, false⟩ ['G', 'G', 'A', 'G', 'G'] =
      .error (.collision "Tentativa de mover para parede") ∧
    ¬ ∃ out, runCommands [['X', '.']] ⟨(1, 0), 1, false⟩ ['G', 'G', 'A', 'G', 'G'] =
      .ok out := by
  refine ⟨rfl, rfl, rfl, ?_⟩
  rintro ⟨out, hout⟩
  rw [(rfl : runCommands [['X', '.']] ⟨(1, 0), 1, false⟩ ['G', 'G', 'A', 'G', 'G'] =
    .error (.collision "Tentativa de mover para parede"))] at hout
  cases hout

/-- C7 amended: after a successful `'A'`, executing
`['G','G','A','G','G']` restores exactly the original state (pose,
heading, cargo and grid), provided the origin cell stepped back onto is
safe: out of bounds, or not a wall and — when empty-handed — not a
victim cell.  (`CarryState = false` by itself is not sufficient.) -/
theorem advance_roundtrip (g : Grid) (s s' : RobotState) (g' : Grid)
    (h : applyCommand g s 'A' = .ok (s', g'))
    (hsafe : isPositionValid g s.pos = false ∨
      (getCell g s.pos ≠ 'X' ∧ (s.carga = false → getCell g s.pos ≠ '@'))) :
    runCommands g' s' ['G', 'G', 'A', 'G', 'G'] = .ok (s, g) := by
  obtain ⟨fp, hm, hre⟩ := advance_ok h
  have hs' : s' = { s with pos := fp } := congrArg Prod.fst hre
  have hg' : g' = g := congrArg Prod.snd hre
  rw [hs', hg']
  clear h hre hs' hg'
  obtain ⟨p, d, c⟩ := s
  have hd4 : d = 0 ∨ d = 1 ∨ d = 2 ∨ d = 3 := by
    rcases adjacentPos_eq_some hm with ⟨hd, _⟩ | ⟨hd, _⟩ | ⟨hd, _⟩ | ⟨hd, _⟩ <;> tauto
  have hback : adjacentPos fp ((d + 2) % 4) = some p := adjacentPos_back hm
  have e2 : ((d + 1) % 4 + 1) % 4 = (d + 2) % 4 := by
    rcases hd4 with h | h | h | h <;> subst h <;> rfl
  have e4 : (((d + 2) % 4 + 1) % 4 + 1) % 4 = d := by
    rcases hd4 with h | h | h | h <;> subst h <;> rfl
  have hsafe' : isPositionValid g p = false ∨
      (getCell g p ≠ 'X' ∧ (getCell g p = '@' → c = true)) := by
    rcases hsafe with hv | ⟨hx, hc⟩
    · exact Or.inl hv
    · refine Or.inr ⟨hx, fun hat => ?_⟩
      cases hcc : c with
      | false => exact absurd hat (hc hcc)
      | true => rfl
  have step1 : runCommands g ⟨fp, d, c⟩ ['G', 'G', 'A', 'G', 'G'] =
      runCommands g ⟨fp, ((d + 1) % 4 + 1) % 4, c⟩ ['A', 'G', 'G'] := by
    rw [runCommands_turn, runCommands_turn]
  have step2 : runCommands g ⟨fp, ((d + 1) % 4 + 1) % 4, c⟩ ['A', 'G', 'G'] =
      runCommands g ⟨p, (d + 2) % 4, c⟩ ['G', 'G'] := by
    rw [e2]
    exact runCommands_advance g ⟨fp, (d + 2) % 4, c⟩ p ['G', 'G'] hback hsafe'
  have step3 : runCommands g ⟨p, (d + 2) % 4, c⟩ ['G', 'G'] =
      .ok (⟨p, (((d + 2) % 4 + 1) % 4 + 1) % 4, c⟩, g) := by
    rw [runCommands_turn, runCommands_turn]
    rfl
  show runCommands g ⟨fp, d, c⟩ ['G', 'G', 'A', 'G', 'G'] = .ok (⟨p, d, c⟩, g)
  rw [step1, step2, step3, e4]

/-- Witness for the amended C7: a concrete safe round trip. -/
theorem advance_roundtrip_witness :
    runCommands [['E', '.']] ⟨(1, 0), 1, false⟩ ['G', 'G', 'A', 'G', 'G'] =
      .ok (⟨(0, 0), 1, false⟩, [['E', '.']]) :=
  advance_roundtrip [['E', '.']] ⟨(0, 0), 1, false⟩ ⟨(1, 0), 1, false⟩ [['E', '.']]
    rfl (Or.inr ⟨by decide, fun _ => by decide⟩)

/-! ## Hardware initialization (C10) -/

lemma findEntryRowAux_bound : ∀ (row : List Char) (x0 x : Nat),
    findEntryRowAux row x0 = some x → x0 ≤ x ∧ x < x0 + row.length
  | [], _, _, h => by cases h
  | c :: rest, x0, x, h => by
      unfold findEntryRowAux at h
      split_ifs at h with hc
      · injection h with h'
        subst h'
        simp
      · have := findEntryRowAux_bound rest (x0 + 1) x h
        simp only [List.length_cons]
        omega

lemma findEntryAux_bounds : ∀ (rows : List (List Char)) (y0 : Nat) (e : Pos),
    findEntryAux rows y0 = some e →
    0 ≤ e.1 ∧ 0 ≤ e.2 ∧ (y0 : Int) ≤ e.2 ∧ e.2.toNat < y0 + rows.length ∧
    e.1.toNat < (rows.getD (e.2.toNat - y0) []).length
  | [], _, _, h => by cases h
  | row :: rest, y0, e, h => by
      unfold findEntryAux at h
      split at h
      next x hx =>
        injection h with h'
        subst h'
        have hb := findEntryRowAux_bound row 0 x hx
        refine ⟨by omega, by omega, le_refl _, by simp only [List.length_cons]; omega, ?_⟩
        have hidx0 : ((y0 : Int)).toNat - y0 = 0 := by omega
        simp only [hidx0, List.getD_cons_zero]
        omega
      next hx =>
        have ih := findEntryAux_bounds rest (y0 + 1) e h
        obtain ⟨h1, h2, h3, h4, h5⟩ := ih
        refine ⟨h1, h2, by omega, by simp only [List.length_cons]; omega, ?_⟩
        have hidx : e.2.toNat - y0 = (e.2.toNat - (y0 + 1)) + 1 := by omega
        rw [hidx, List.getD_cons_succ]
        exact h5

lemma findEntry_bounds {g : Grid} {e : Pos} (h : findEntry g = some e) :
    0 ≤ e.1 ∧ 0 ≤ e.2 ∧ e.2.toNat < g.length ∧
    e.1.toNat < (g.getD e.2.toNat []).length := by
  have := findEntryAux_bounds g 0 e h
  obtain ⟨h1, h2, _, h4, h5⟩ := this
  exact ⟨h1, h2, by omega, by simpa using h5⟩

lemma getD_mem {α : Type} : ∀ (l : List α) (i : Nat) (d : α), i < l.length → l.getD i d ∈ l
  | [], _, _, h => absurd h (by simp)
  | x :: xs, 0, d, _ => by simp
  | x :: xs, i + 1, d, h => by
      rw [List.getD_cons_succ]
      exact List.mem_cons_of_mem x (getD_mem xs i d (by simpa using h))

lemma rect_row_length {g : Grid} (hrect : isRectangular g = true)
    {y : Nat} (hy : y < g.length) : (g.getD y []).length = gridWidth g := by
  unfold isRectangular at hrect
  rw [List.all_eq_true] at hrect
  have := hrect (g.getD y []) (getD_mem g y [] hy)
  simpa using this

lemma gridWidth_eq_head_length {g : Grid} (hg : 0 < g.length) :
    gridWidth g = (g.getD 0 []).length := by
  cases g with
  | nil => simp at hg
  | cons row rest => rfl

/-- C10: initialization puts the robot at the entry cell with no cargo,
choosing the heading by the source's ordered border rules (top → South,
bottom → North, left → East, right → West, first match wins), failing
when the entry is on no border edge; on a rectangular grid of height and
width at least two the chosen heading faces an in-bounds cell. -/
theorem init_hardware_spec (g : Grid) (e : Pos) (he : findEntry g = some e) :
    (e.2 = 0 → initHardware g = some ⟨e, 2, false⟩) ∧
    (e.2 ≠ 0 → e.2 = (gridHeight g : Int) - 1 → initHardware g = some ⟨e, 0, false⟩) ∧
    (e.2 ≠ 0 → e.2 ≠ (gridHeight g : Int) - 1 → e.1 = 0 →
      initHardware g = some ⟨e, 1, false⟩) ∧
    (e.2 ≠ 0 → e.2 ≠ (gridHeight g : Int) - 1 → e.1 ≠ 0 →
      e.1 = (gridWidth g : Int) - 1 → initHardware g = some ⟨e, 3, false⟩) ∧
    (e.2 ≠ 0 → e.2 ≠ (gridHeight g : Int) - 1 → e.1 ≠ 0 →
      e.1 ≠ (gridWidth g : Int) - 1 → initHardware g = none) ∧
    (∀ s, initHardware g = some s → s.pos = e ∧ s.carga = false) ∧
    (isRectangular g = true → 2 ≤ gridHeight g → 2 ≤ gridWidth g →
      ∀ s, initHardware g = some s →
        ∃ fp, adjacentPos s.pos s.dir = some fp ∧ isPositionValid g fp = true) := by
  refine ⟨fun h1 => by simp [initHardware, he, initialDir, h1],
    fun h1 h2 => by
      have h1' : (gridHeight g : Int) - 1 ≠ 0 := by rw [← h2]; exact h1
      simp [initHardware, he, initialDir, h1, h2, h1'],
    fun h1 h2 h3 => by simp [initHardware, he, initialDir, h1, h2, h3],
    fun h1 h2 h3 h4 => by
      have h3' : (gridWidth g : Int) - 1 ≠ 0 := by rw [← h4]; exact h3
      simp [initHardware, he, initialDir, h1, h2, h3, h4, h3'],
    fun h1 h2 h3 h4 => by simp [initHardware, he, initialDir, h1, h2, h3, h4],
    fun s hs => ?_, fun hrect hh hw s hs => ?_⟩
  · simp only [initHardware, he] at hs
    split at hs
    next => cases hs
    next d hd =>
      injection hs with hs'
      rw [← hs']
      exact ⟨rfl, rfl⟩
  · simp only [initHardware, he] at hs
    have hb := findEntry_bounds he
    split at hs
    next => cases hs
    next d hd =>
      injection hs with hs'
      subst hs'
      unfold initialDir at hd
      have hhg : gridHeight g = g.length := rfl
      split_ifs at hd with c1 c2 c3 c4 <;> injection hd with hd' <;> subst hd'
      · -- top edge, heading South: front cell (e.1, 1)
        refine ⟨(e.1, e.2 + 1), rfl, isPositionValid_iff.mpr ?_⟩
        have hzero : e.2.toNat = 0 := by rw [c1]; rfl
        have hw0 : (g.getD 0 []).length = gridWidth g :=
          rect_row_length hrect (by omega)
        have hx : e.1.toNat < gridWidth g := by
          have h5 := hb.2.2.2
          rw [hzero] at h5
          rw [← hw0]
          exact h5
        refine ⟨by omega, by omega, by omega, by omega⟩
      · -- bottom edge, heading North: front cell (e.1, e.2 - 1)
        refine ⟨(e.1, e.2 - 1), rfl, isPositionValid_iff.mpr ?_⟩
        have hwr : (g.getD e.2.toNat []).length = gridWidth g :=
          rect_row_length hrect hb.2.2.1
        have : e.1.toNat < gridWidth g := by rw [← hwr]; exact hb.2.2.2
        refine ⟨by omega, by omega, by omega, by omega⟩
      · -- left edge, heading East: front cell (1, e.2)
        refine ⟨(e.1 + 1, e.2), rfl, isPositionValid_iff.mpr ?_⟩
        refine ⟨by omega, by omega, by omega, by omega⟩
      · -- right edge, heading West: front cell (width - 2, e.2)
        refine ⟨(e.1 - 1, e.2), rfl, isPositionValid_iff.mpr ?_⟩
        refine ⟨by omega, by omega, by omega, by omega⟩

/-- Witness for C10 on `gEx` (entry on the top border). -/
theorem init_hardware_spec_witness :
    initHardware gEx = some ⟨(1, 0), 2, false⟩ ∧
    ∃ fp, adjacentPos ((1 : Int), (0 : Int)) 2 = some fp ∧ isPositionValid gEx fp = true :=
  ⟨(init_hardware_spec gEx (1, 0) (by decide)).1 rfl,
   (init_hardware_spec gEx (1, 0) (by decide)).2.2.2.2.2.2 (by decide) (by decide) (by decide)
     ⟨(1, 0), 2, false⟩ ((init_hardware_spec gEx (1, 0) (by decide)).1 rfl)⟩

end RescueRobot
